import Mathlib

/-!
# Verification of the Yolo2Mqtt event-detection and debounce engine

A shallow embedding of the core of the repository:
* `src/src/valueStatTracker.py` (`ValueStatTracker`),
* `src/src/watchedObject.py` (`WatchedObject`),
* `src/src/contextChecker.py` (`ContextChecker`), and
* `src/interactionTracker.py` (`InteractionTracker.checkForEvents` and the
  discovery publication path).

Python floats are embedded as exact rationals (`ℚ`); Python runtime errors
(`ZeroDivisionError`, `KeyError`, `AssertionError`, `RecursionError`,
`IndexError`, `AttributeError`) are embedded with `Except PyErr`.  Python
`dict`s (insertion ordered) are embedded as association lists with the
insertion-order update discipline of CPython.
-/

/-- Python runtime errors that the embedded code can raise. -/
inductive PyErr where
  | zeroDivision
  | keyError
  | assertionError
  | recursionError
  | indexError
  | attributeError
deriving DecidableEq, Repr

/-! ## Association lists with CPython dict semantics -/

/-- `dict.get(k, None)` : first binding of `k`, if any. -/
def alGet {α β : Type} [DecidableEq α] : List (α × β) → α → Option β
  | [], _ => none
  | (a, b) :: t, k => if a = k then some b else alGet t k

/-- `dict[k] = v` : update the existing binding in place, else append at the
end (CPython insertion-order semantics). -/
def alSet {α β : Type} [DecidableEq α] : List (α × β) → α → β → List (α × β)
  | [], k, v => [(k, v)]
  | (a, b) :: t, k, v => if a = k then (k, v) :: t else (a, b) :: alSet t k v

/-- `dict.pop(k)` : remove the binding of `k` (keys are unique in a dict, so
removing the first occurrence is exact). -/
def alRemove {α β : Type} [DecidableEq α] : List (α × β) → α → List (α × β)
  | [], _ => []
  | (a, b) :: t, k => if a = k then t else (a, b) :: alRemove t k

/-! ## Bounding boxes

Modelled from the spec: the `trackerTools.bbox.BBox` class lives in a git
submodule that is not part of the sources; the spec (§3 `Detection`, §6
`Detection feed`) describes a box as an axis-aligned rectangle in a
normalized coordinate frame serialized as `[x, y, w, h]`.  `asRX1Y1X2Y2`
returns the two corners, `area` the rectangle area. -/
structure BBox where
  x : ℚ
  y : ℚ
  w : ℚ
  h : ℚ
deriving DecidableEq, Repr

/-- Corner representation `(x1, y1, x2, y2)` of a box. -/
def BBox.asRX1Y1X2Y2 (b : BBox) : ℚ × ℚ × ℚ × ℚ := (b.x, b.y, b.x + b.w, b.y + b.h)

/-- `[x, y, w, h]` wire representation of a box. -/
def BBox.asRX1Y1WH (b : BBox) : ℚ × ℚ × ℚ × ℚ := (b.x, b.y, b.w, b.h)

/-- Rebuild a box from its `[x, y, w, h]` wire representation. -/
def BBox.fromRX1Y1WH (x y w h : ℚ) : BBox := ⟨x, y, w, h⟩

/-- Rectangle area of a box. -/
def BBox.area (b : BBox) : ℚ := b.w * b.h

instance : Inhabited BBox := ⟨⟨0, 0, 0, 0⟩⟩

/-! ## ContextChecker (`src/src/contextChecker.py`) -/

/-- `ConfiguredInteraction` from `contextChecker.py`: one interaction
template.  `thresh` is parsed from the `threshold` config key (default 0.7). -/
structure ConfiguredInteraction where
  name : String
  thresh : ℚ
  minTime : ℚ
  expireTime : ℚ
  slots : List (List String)
deriving DecidableEq, Repr

/-- `OverlapInfo` from `contextChecker.py`: a pair of entity indices and
their Intersection-over-Smaller-Area. -/
structure OverlapInfo where
  idxs : List ℕ
  ios : ℚ
deriving DecidableEq, Repr

/-- The slice of `WatchedObject` that `ContextChecker` reads: the best label
(`None` possible for a freshly deserialized object) and the last box. -/
structure CheckerObj where
  label : Option String
  bbox : BBox
deriving DecidableEq, Repr

instance : Inhabited CheckerObj := ⟨⟨none, default⟩⟩

/-- `ContextChecker.calcIoS`: area of overlap over the smaller of the two
areas.  Python raises `ZeroDivisionError` when the smaller area is zero. -/
def calcIoS (boxA boxB : BBox) : Except PyErr ℚ :=
  let a := boxA.asRX1Y1X2Y2
  let b := boxB.asRX1Y1X2Y2
  let oX1 := max a.1 b.1
  let oY1 := max a.2.1 b.2.1
  let oX2 := min a.2.2.1 b.2.2.1
  let oY2 := min a.2.2.2 b.2.2.2
  if oX2 < oX1 ∨ oY2 < oY1 then
    Except.ok 0
  else
    let m := min boxA.area boxB.area
    if m = 0 then Except.error PyErr.zeroDivision
    else Except.ok ((oX2 - oX1) * (oY2 - oY1) / m)

/-- `ContextChecker.getOverlaps`: every index pair `idx1 < idx2` whose IoS is
nonzero, in row-major order of the (upper-triangular) matrix that the code
fills before running `np.where(retMatrix != 0.0)`. -/
def getOverlaps (bboxes : List BBox) : Except PyErr (List OverlapInfo) :=
  let n := bboxes.length
  (List.range n).foldlM
    (fun acc idx1 =>
      (List.range n).foldlM
        (fun acc idx2 =>
          if idx1 < idx2 then do
            let ios ← calcIoS (bboxes.getD idx1 default) (bboxes.getD idx2 default)
            if ios ≠ 0 then pure (acc ++ [OverlapInfo.mk [idx1, idx2] ios])
            else pure acc
          else pure acc)
        acc)
    []

/-- Python `obj.label in slot` where `obj.label` may be `None`. -/
def labelInSlot (l : Option String) (slot : List String) : Bool :=
  match l with
  | none => false
  | some s => s ∈ slot

/-- `findMatches` from `ContextChecker.getEvents`: recursively enumerate all
slot-filling assignments of the overlap members.  The body mirrors the
Python statement order: the `assert(len(overlapIdxs) == len(slots))` first
(`AssertionError`), then the `maxRecurse == 0` guard (`RecursionError`),
then `slots[0]` (`IndexError` on an empty slot list), then the loop.
Indices produced by `getOverlaps` are always in range, so the out-of-range
read `objects[overlapIdx]` is embedded with a default value (unreachable
from `getEvents`). -/
def findMatches (objects : List CheckerObj) :
    (maxRecurse : ℕ) → (overlapIdxs : List ℕ) → (slots : List (List String)) →
    Except PyErr (List (List ℕ))
  | maxRecurse, overlapIdxs, slots =>
    if overlapIdxs.length ≠ slots.length then Except.error PyErr.assertionError
    else
      match maxRecurse with
      | 0 => Except.error PyErr.recursionError
      | m + 1 =>
        match slots with
        | [] => Except.error PyErr.indexError
        | slot :: restSlots =>
          overlapIdxs.enum.foldlM
            (fun ret p =>
              let obj := objects.getD p.2 default
              if labelInSlot obj.label slot then
                if overlapIdxs.length = 1 then pure (ret ++ [[p.2]])
                else do
                  let submatches ← findMatches objects m (overlapIdxs.eraseIdx p.1) restSlots
                  pure (ret ++ submatches.map (fun matchList => p.2 :: matchList))
              else pure ret)
            []

/-- `ContextChecker.EventInfo`: a candidate match of a template. -/
structure EventInfo where
  event : ConfiguredInteraction
  slotsObjs : List CheckerObj
deriving DecidableEq, Repr

/-- `ContextChecker.getEvents`: pairwise overlaps, then for each overlap and
each configured template, every slot-filling combination.  Note that the
template's `thresh` field is never consulted here (it is stored by the
constructor and then dead). -/
def getEvents (events : List ConfiguredInteraction) (objects : List CheckerObj) :
    Except PyErr (List EventInfo) := do
  let overlaps ← getOverlaps (objects.map (fun o => o.bbox))
  overlaps.foldlM
    (fun acc overlap =>
      events.foldlM
        (fun acc event => do
          let found ← findMatches objects 100 overlap.idxs event.slots
          pure (acc ++ found.map
            (fun matchList =>
              EventInfo.mk event (matchList.map (fun i => objects.getD i default)))))
        acc)
    []

/-! ## ValueStatTracker (`src/src/valueStatTracker.py`) -/

/-- `ValueStatTracker`: Welford-form online statistics over a float stream. -/
structure ValueStatTracker where
  lastValue : ℚ := 0
  sum : ℚ := 0
  sumSq : ℚ := 0
  count : ℕ := 0
  vmin : ℚ := 0
  vmax : ℚ := 0
  avg : ℚ := 0
deriving DecidableEq, Repr

/-- `ValueStatTracker.addValue`, statement for statement:
count increment, first-value min, Welford mean and squared-deviation
updates, then the min/max comparisons. -/
def ValueStatTracker.addValue (t : ValueStatTracker) (value : ℚ) : ValueStatTracker :=
  let count := t.count + 1
  let vmin0 := if count = 1 then value else t.vmin
  let prevAvg := t.avg
  let sum := t.sum + value
  let avg := t.avg + (value - prevAvg) / (count : ℚ)
  let sumSq := t.sumSq + (value - prevAvg) * (value - avg)
  let vmin := if value < vmin0 then value else vmin0
  let vmax := if t.vmax < value then value else t.vmax
  { lastValue := value, sum := sum, sumSq := sumSq, count := count,
    vmin := vmin, vmax := vmax, avg := avg }

/-! ## WatchedObject (`src/src/watchedObject.py`) -/

/-- `WatchedObject.Detection`: one (label, confidence, box) observation. -/
structure Detection where
  label : String
  conf : ℚ
  bbox : BBox
deriving DecidableEq, Repr

/-- `WatchedObject._ConfDictEntry`: per-label statistics; `conf` and `bbox`
are created as `None` and filled in later. -/
structure ConfDictEntry where
  tracker : ValueStatTracker
  conf : Option ℚ
  bbox : Option BBox
deriving DecidableEq, Repr

/-- The `WatchedObject` state. `bestLabel` is a Python `str`-or-`None`
(`""` initially, possibly `None` after `fromJson` of a label-less record). -/
structure WatchedObject where
  framesCnt : ℕ := 0
  framesSeen : ℕ := 0
  framesSinceSeen : ℕ := 0
  confDict : List (String × ConfDictEntry) := []
  bestLabel : Option String := some ""
  bestConf : ℚ := 0
  lastBbox : BBox := ⟨0, 0, 0, 0⟩
deriving DecidableEq, Repr

/-- Rebuild the per-label share list used by `_recalculateBest`'s loop:
every entry gets `conf = tracker.sum / meanConfSum`. -/
def updateShares (confDict : List (String × ConfDictEntry)) (meanConfSum : ℚ) :
    List (String × ConfDictEntry) :=
  confDict.map (fun e => (e.1, { e.2 with conf := some (e.2.tracker.sum / meanConfSum) }))

/-- The best-selection loop of `_recalculateBest`: `bestConf` starts at
`0.0`, an entry wins only with a strictly greater share (first entry wins
ties), and the winning tracker is remembered. -/
def pickBest (confDict : List (String × ConfDictEntry)) (meanConfSum : ℚ) :
    Option (String × ValueStatTracker) × ℚ :=
  confDict.foldl
    (fun acc e =>
      let share := e.2.tracker.sum / meanConfSum
      if acc.2 < share then (some (e.1, e.2.tracker), share) else acc)
    (none, 0)

/-- `WatchedObject._recalculateBest`.  The Python loop executes the division
`entry.tracker.sum / meanConfSum` before anything else, so a nonempty dict
with zero total mass raises `ZeroDivisionError`; an empty dict skips the
loop and raises `AttributeError` on `bestTracker.avg` (`None.avg`); the
same `AttributeError` fires when no entry's share exceeds `0.0`. -/
def recalculateBest (o : WatchedObject) : Except PyErr WatchedObject :=
  let meanConfSum := (o.confDict.map (fun e => e.2.tracker.avg * (e.2.tracker.count : ℚ))).sum
  match o.confDict with
  | [] => Except.error PyErr.attributeError
  | _ :: _ =>
    if meanConfSum = 0 then Except.error PyErr.zeroDivision
    else
      match pickBest o.confDict meanConfSum with
      | (none, _) => Except.error PyErr.attributeError
      | (some (bestLabel, bestTracker), bestShare) =>
        Except.ok { o with confDict := updateShares o.confDict meanConfSum,
                           bestLabel := some bestLabel,
                           bestConf := bestTracker.avg * bestShare }

/-- The detection-folding statements of `markSeen` (lines 84-90): look the
label's entry up (`setdefault` appends a fresh entry at the dict's end),
fold the confidence into its tracker, and update the boxes. -/
def foldDetection (o : WatchedObject) (d : Detection) : WatchedObject :=
  let entry0 :=
    match alGet o.confDict d.label with
    | none => ConfDictEntry.mk {} none none
    | some e => e
  let entry := { entry0 with tracker := entry0.tracker.addValue d.conf, bbox := some d.bbox }
  { o with lastBbox := d.bbox, confDict := alSet o.confDict d.label entry }

/-- `WatchedObject.markSeen`: reset the missing streak, count the frame,
fold the detection (if any) into its label's tracker, and recompute the
best label. -/
def markSeen (o : WatchedObject) (detection : Option Detection) (newFrame : Bool) :
    Except PyErr WatchedObject :=
  let o1 := { o with framesSinceSeen := 0 }
  let o2 := if newFrame then { o1 with framesCnt := o1.framesCnt + 1 } else o1
  match detection with
  | none => Except.ok o2
  | some d => recalculateBest (foldDetection o2 d)

/-- The flat record produced by `WatchedObject.json` (Python serializes this
dict to text and `fromJson` parses it back; `json.dumps`/`loads` of such a
record is lossless, so the text layer is embedded as the record itself). -/
structure WireRecord where
  label : Option String
  conf : ℚ
  framesMissing : ℕ
  framesSeen : ℕ
  age : ℕ
  bbox : ℚ × ℚ × ℚ × ℚ
deriving DecidableEq, Repr

/-- `WatchedObject.json`. -/
def WatchedObject.json (o : WatchedObject) : WireRecord :=
  { label := o.bestLabel, conf := o.bestConf, framesMissing := o.framesSinceSeen,
    framesSeen := o.framesSeen, age := o.framesCnt, bbox := o.lastBbox.asRX1Y1WH }

/-- `WatchedObject.fromJson`. -/
def WatchedObject.fromJson (r : WireRecord) : WatchedObject :=
  { framesCnt := r.age, framesSeen := r.framesSeen, framesSinceSeen := r.framesMissing,
    confDict := [], bestLabel := r.label, bestConf := r.conf,
    lastBbox := BBox.fromRX1Y1WH r.bbox.1 r.bbox.2.1 r.bbox.2.2.1 r.bbox.2.2.2 }

/-! ## Reference best-label algorithm (spec §4.2)

The spec's reference algorithm, written from the spec's words for the
refinement claim: `totalMass = Σ_L rawConfidenceSum(L) (= Σ avg(L)·n(L))`,
`share(L) = rawConfidenceSum(L)/totalMass`, `bestLabel = argmax share`
(first-observed label wins ties), `bestConfidence = avg(best)·share(best)`. -/

/-- Spec reference: `totalMass = Σ over labels of avg(L)*n(L)`. -/
def specTotalMass (confDict : List (String × ConfDictEntry)) : ℚ :=
  (confDict.map (fun e => e.2.tracker.avg * (e.2.tracker.count : ℚ))).sum

/-- Spec reference: `share(L) = rawConfidenceSum(L) / totalMass`. -/
def specShare (t : ValueStatTracker) (totalMass : ℚ) : ℚ := t.sum / totalMass

/-- Spec reference: argmax of share over the labels in first-observed
order, ties won by the earlier label. -/
def specArgmax (confDict : List (String × ConfDictEntry)) (totalMass : ℚ) :
    Option (String × ValueStatTracker) :=
  match confDict with
  | [] => none
  | e :: rest =>
    (rest.foldl
      (fun acc x =>
        if acc.2 < specShare x.2.tracker totalMass then (x, specShare x.2.tracker totalMass)
        else acc)
      (e, specShare e.2.tracker totalMass)).1 |> (fun p => some (p.1, p.2.tracker))

/-- Spec reference: the label of maximal share. -/
def specBestLabel (confDict : List (String × ConfDictEntry)) : Option String :=
  (specArgmax confDict (specTotalMass confDict)).map (fun p => p.1)

/-- Spec reference: `bestConfidence = avg(bestLabel) * share(bestLabel)`. -/
def specBestConf (confDict : List (String × ConfDictEntry)) : ℚ :=
  match specArgmax confDict (specTotalMass confDict) with
  | none => 0
  | some p => p.2.avg * specShare p.2 (specTotalMass confDict)

/-- `n` successive `markSeen` calls with the same detection on a fresh
entity (each on a new frame). -/
def seenN (lbl : String) (c : ℚ) (box : BBox) : ℕ → Except PyErr WatchedObject
  | 0 => Except.ok {}
  | n + 1 =>
    match seenN lbl c box n with
    | Except.error e => Except.error e
    | Except.ok o => markSeen o (some ⟨lbl, c, box⟩) true

/-! ## InteractionTracker (`src/interactionTracker.py`) -/

/-- `EventKey`: interaction name plus the ordered slot-label sequence. -/
structure EventKey where
  key : String
  slots : List String
deriving DecidableEq, Repr

/-- `EventKey.name`: `f"{key}/{'/'.join(slots)}"`. -/
def EventKey.name (k : EventKey) : String :=
  k.key ++ "/" ++ String.intercalate "/" k.slots

/-- `EventValue`: one tracked event record. -/
structure EventValue where
  firstTimestamp : ℚ := 0
  lastTimestamp : ℚ := 0
  published : Bool := false
deriving DecidableEq, Repr

/-- `config.Interaction` (from `src/src/config.py`): the per-interaction
configuration consulted by the expiry path. -/
structure Interaction where
  slots : List (List String)
  threshold : ℚ := 1/2
  minTime : ℚ := 3
  expireTime : ℚ := 5
deriving DecidableEq, Repr

/-- Outbound MQTT traffic of one evaluation pass: `activated`/`cleared` are
the state-topic publications of `publishEvent` (activation payload /
retained empty clear payload); `haState`/`haConfig` are the Home Assistant
discovery publications of `publishDiscoveryEvent`. -/
inductive Emission where
  | activated (k : EventKey)
  | cleared (k : EventKey)
  | haState (entityId : String) (payload : String)
  | haConfig (entityId : String)
deriving DecidableEq, Repr

/-- The static surroundings of `InteractionTracker.checkForEvents` for one
context: the clock (`time.time()` samples in call order), the
`homeAssistant.discoveryEnabled` flag, the configured interactions map, and
the strings from which entity ids are derived. -/
structure EngineCfg where
  clock : ℕ → ℚ
  discoveryEnabled : Bool
  interactions : List (String × Interaction)
  entityPref : String := "Tracker"
  contextName : String := "cam"

/-- The mutable state threaded through one evaluation pass of a context:
the event dict, the pass-local `usedKeys`, the index of the next
`time.time()` sample, the emissions so far, and the process-lifetime
`_discoveryPublished` set. -/
structure EngineState where
  events : List (EventKey × EventValue) := []
  usedKeys : List EventKey := []
  clockIdx : ℕ := 0
  emissions : List Emission := []
  discoveryPublished : List String := []
deriving Repr

/-- `_createEntityId`: strip `-` and `_` from the context and event names,
then turn the event name's slashes into dashes. -/
def createEntityId (cfg : EngineCfg) (k : EventKey) : String :=
  let strip := fun (s : String) => String.mk (s.data.filter (fun c => c ≠ '-' ∧ c ≠ '_'))
  cfg.entityPref ++ "-" ++ strip cfg.contextName ++ "-"
    ++ (strip (EventKey.name k)).replace "/" "-"

/-- `publishDiscoveryEvent`: always publish the retained state payload
first; then, only if this entity id has never been registered, add it to
`_discoveryPublished` and publish the one-time config payload. -/
def publishDiscoveryEvent (published : List String) (entityId : String) (state : String) :
    List String × List Emission :=
  if entityId ∈ published then
    (published, [Emission.haState entityId state])
  else
    (entityId :: published, [Emission.haState entityId state, Emission.haConfig entityId])

/-- One iteration of the candidate loop of `checkForEvents` (lines 118-138):
dedupe via `usedKeys`, create a fresh record (sampling `time.time()` for
`firstTimestamp` and again, at line 138, for `lastTimestamp`), or test the
debounce condition `time.time() > firstTimestamp + minTime` (the sample is
skipped by short-circuit when the record is already published), publish on
success, and refresh `lastTimestamp` with one more sample. -/
def processCandidate (cfg : EngineCfg) (st : EngineState)
    (c : ConfiguredInteraction × List String) : EngineState :=
  let k : EventKey := ⟨c.1.name, c.2⟩
  if k ∈ st.usedKeys then st
  else
    let used := st.usedKeys ++ [k]
    match alGet st.events k with
    | none =>
      let t1 := cfg.clock st.clockIdx
      let t2 := cfg.clock (st.clockIdx + 1)
      { st with events := alSet st.events k ⟨t1, t2, false⟩,
                usedKeys := used, clockIdx := st.clockIdx + 2 }
    | some v =>
      if v.published then
        let t := cfg.clock st.clockIdx
        { st with events := alSet st.events k ⟨v.firstTimestamp, t, true⟩,
                  usedKeys := used, clockIdx := st.clockIdx + 1 }
      else
        let t1 := cfg.clock st.clockIdx
        if v.firstTimestamp + c.1.minTime < t1 then
          let dpEms :=
            if cfg.discoveryEnabled then
              publishDiscoveryEvent st.discoveryPublished (createEntityId cfg k) "ON"
            else (st.discoveryPublished, [])
          let t2 := cfg.clock (st.clockIdx + 1)
          { st with events := alSet st.events k ⟨v.firstTimestamp, t2, true⟩,
                    usedKeys := used, clockIdx := st.clockIdx + 2,
                    emissions := st.emissions ++ [Emission.activated k] ++ dpEms.2,
                    discoveryPublished := dpEms.1 }
        else
          let t2 := cfg.clock (st.clockIdx + 1)
          { st with events := alSet st.events k ⟨v.firstTimestamp, t2, false⟩,
                    usedKeys := used, clockIdx := st.clockIdx + 2 }

/-- One iteration of the expiry loop of `checkForEvents` (lines 141-151):
look the record up, look the interaction up (`KeyError` when the interaction
name is no longer configured, before the clock is sampled), then test
`time.time() > lastTimestamp + expireTime`; on expiry publish the clear (and
discovery OFF) only if the record was published, and pop the record
unconditionally. -/
def expiryStep (cfg : EngineCfg) (st : EngineState) (k : EventKey) :
    Except PyErr EngineState :=
  let trackedEvent := alGet st.events k
  match alGet cfg.interactions k.key with
  | none => Except.error PyErr.keyError
  | some interaction =>
    match trackedEvent with
    | none => Except.error PyErr.attributeError
    | some v =>
      let t := cfg.clock st.clockIdx
      if v.lastTimestamp + interaction.expireTime < t then
        let dpEms :=
          if v.published then
            if cfg.discoveryEnabled then
              let pd := publishDiscoveryEvent st.discoveryPublished (createEntityId cfg k) "OFF"
              (pd.1, [Emission.cleared k] ++ pd.2)
            else (st.discoveryPublished, [Emission.cleared k])
          else (st.discoveryPublished, [])
        Except.ok { st with events := alRemove st.events k,
                            clockIdx := st.clockIdx + 1,
                            emissions := st.emissions ++ dpEms.2,
                            discoveryPublished := dpEms.1 }
      else
        Except.ok { st with clockIdx := st.clockIdx + 1 }

/-- One evaluation pass of `checkForEvents` over a single context, given the
candidate list produced by the checker (each candidate carries its template
and the slot labels of the matched objects).  `allKeys` is snapshotted
before the candidate loop; the Python `set` difference `allKeys - usedKeys`
is iterated here in dict insertion order (CPython leaves set order
unspecified). -/
def runPass (cfg : EngineCfg) (newEvents : List (ConfiguredInteraction × List String))
    (st0 : EngineState) : Except PyErr EngineState :=
  let allKeys := st0.events.map Prod.fst
  let st1 := newEvents.foldl (processCandidate cfg) { st0 with usedKeys := [] }
  (allKeys.filter (fun k => k ∉ st1.usedKeys)).foldlM (expiryStep cfg) st1

/-! ## Single-sample reference pass (spec §5)

Modelled from the spec: "All timing decisions within one evaluation pass
must sample now once and reuse it for every key evaluated in that pass."
The reference runs the same reconciliation algorithm, with the single value
`now` in place of every `time.time()` sample (the sample counter is left
untouched, since the reference never consumes the clock). -/

/-- Candidate loop iteration of the single-sample reference. -/
def refProcessCandidate (cfg : EngineCfg) (now : ℚ) (st : EngineState)
    (c : ConfiguredInteraction × List String) : EngineState :=
  let k : EventKey := ⟨c.1.name, c.2⟩
  if k ∈ st.usedKeys then st
  else
    let used := st.usedKeys ++ [k]
    match alGet st.events k with
    | none =>
      { st with events := alSet st.events k ⟨now, now, false⟩, usedKeys := used }
    | some v =>
      if v.published then
        { st with events := alSet st.events k ⟨v.firstTimestamp, now, true⟩, usedKeys := used }
      else if v.firstTimestamp + c.1.minTime < now then
        let dpEms :=
          if cfg.discoveryEnabled then
            publishDiscoveryEvent st.discoveryPublished (createEntityId cfg k) "ON"
          else (st.discoveryPublished, [])
        { st with events := alSet st.events k ⟨v.firstTimestamp, now, true⟩,
                  usedKeys := used,
                  emissions := st.emissions ++ [Emission.activated k] ++ dpEms.2,
                  discoveryPublished := dpEms.1 }
      else
        { st with events := alSet st.events k ⟨v.firstTimestamp, now, false⟩, usedKeys := used }

/-- Expiry loop iteration of the single-sample reference. -/
def refExpiryStep (cfg : EngineCfg) (now : ℚ) (st : EngineState) (k : EventKey) :
    Except PyErr EngineState :=
  let trackedEvent := alGet st.events k
  match alGet cfg.interactions k.key with
  | none => Except.error PyErr.keyError
  | some interaction =>
    match trackedEvent with
    | none => Except.error PyErr.attributeError
    | some v =>
      if v.lastTimestamp + interaction.expireTime < now then
        let dpEms :=
          if v.published then
            if cfg.discoveryEnabled then
              let pd := publishDiscoveryEvent st.discoveryPublished (createEntityId cfg k) "OFF"
              (pd.1, [Emission.cleared k] ++ pd.2)
            else (st.discoveryPublished, [Emission.cleared k])
          else (st.discoveryPublished, [])
        Except.ok { st with events := alRemove st.events k,
                            emissions := st.emissions ++ dpEms.2,
                            discoveryPublished := dpEms.1 }
      else
        Except.ok st

/-- The single-sample reference pass: sample the clock once at the start of
the pass and reuse that value for every decision. -/
def refRunPass (cfg : EngineCfg) (newEvents : List (ConfiguredInteraction × List String))
    (st0 : EngineState) : Except PyErr EngineState :=
  let now := cfg.clock st0.clockIdx
  let allKeys := st0.events.map Prod.fst
  let st1 := newEvents.foldl (refProcessCandidate cfg now) { st0 with usedKeys := [] }
  (allKeys.filter (fun k => k ∉ st1.usedKeys)).foldlM (refExpiryStep cfg now) st1

/-- The observable part of an engine state: everything except the clock
sample counter (which only the code-side pass consumes). -/
def EngineState.obs (st : EngineState) :
    List (EventKey × EventValue) × List EventKey × List Emission × List String :=
  (st.events, st.usedKeys, st.emissions, st.discoveryPublished)

/-- Observable part of a pass result. -/
def obsResult (r : Except PyErr EngineState) :
    Except PyErr (List (EventKey × EventValue) × List EventKey × List Emission × List String) :=
  r.map EngineState.obs

/-! ## Helper lemmas -/

theorem exceptBind_err {β γ : Type} (e : PyErr) (g : β → Except PyErr γ) :
    (Except.error e >>= g) = Except.error e := rfl

theorem exceptBind_ok {β γ : Type} (x : β) (g : β → Except PyErr γ) :
    (Except.ok x >>= g) = g x := rfl

theorem exceptPure_eq {β : Type} (x : β) : (pure x : Except PyErr β) = Except.ok x := rfl

theorem alGet_alSet_self {α β : Type} [DecidableEq α] (l : List (α × β)) (k : α) (v : β) :
    alGet (alSet l k v) k = some v := by
  induction l with
  | nil => simp [alGet, alSet]
  | cons hd tl ih =>
    by_cases h : hd.1 = k
    · simp [alSet, alGet, h]
    · simp [alSet, alGet, h, ih]

theorem alGet_alSet_ne {α β : Type} [DecidableEq α] (l : List (α × β)) (k k' : α) (v : β)
    (h : k ≠ k') : alGet (alSet l k v) k' = alGet l k' := by
  induction l with
  | nil => simp [alGet, alSet, h]
  | cons hd tl ih =>
    by_cases hh : hd.1 = k
    · simp [alSet, alGet, hh, h]
    · simp [alSet, alGet, hh, ih]

theorem foldlM_except_inv {α β : Type} (P : β → Prop) {f : β → α → Except PyErr β}
    (hf : ∀ b a r, P b → f b a = Except.ok r → P r) :
    ∀ (xs : List α) (init res : β), P init → xs.foldlM f init = Except.ok res → P res := by
  intro xs
  induction xs with
  | nil =>
    intro init res h hE
    simp only [List.foldlM_nil, exceptPure_eq] at hE
    cases hE
    exact h
  | cons hd tl ih =>
    intro init res h hE
    rw [List.foldlM_cons] at hE
    cases hF : f init hd with
    | error e => rw [hF, exceptBind_err] at hE; cases hE
    | ok b =>
      rw [hF, exceptBind_ok] at hE
      exact ih b res (hf init hd b h hF) hE

theorem getOverlaps_idxs_length (bboxes : List BBox) (l : List OverlapInfo)
    (h : getOverlaps bboxes = Except.ok l) : ∀ ov ∈ l, ov.idxs.length = 2 := by
  refine foldlM_except_inv (fun acc => ∀ ov ∈ acc, ov.idxs.length = 2) ?_
    (List.range bboxes.length) [] l (fun ov hov => absurd hov (List.not_mem_nil ov)) h
  intro b i r hb hE
  refine foldlM_except_inv (fun acc => ∀ ov ∈ acc, ov.idxs.length = 2) ?_
    (List.range bboxes.length) b r hb hE
  intro b2 j r2 hb2 hE2
  by_cases hij : i < j
  · rw [if_pos hij] at hE2
    cases hC : calcIoS (bboxes.getD i default) (bboxes.getD j default) with
    | error e => rw [hC, exceptBind_err] at hE2; cases hE2
    | ok q =>
      rw [hC, exceptBind_ok] at hE2
      by_cases hq : q ≠ 0
      · rw [if_pos hq, exceptPure_eq] at hE2
        cases hE2
        intro ov hov
        rcases List.mem_append.mp hov with h1 | h2
        · exact hb2 ov h1
        · simp at h2
          subst h2
          rfl
      · rw [if_neg hq, exceptPure_eq] at hE2
        cases hE2
        exact hb2
  · rw [if_neg hij, exceptPure_eq] at hE2
    cases hE2
    exact hb2

theorem findMatches_len_ne (objects : List CheckerObj) (fuel : ℕ) (idxs : List ℕ)
    (slots : List (List String)) (h : idxs.length ≠ slots.length) :
    findMatches objects fuel idxs slots = Except.error PyErr.assertionError := by
  rw [findMatches.eq_def]
  simp [h]

/-! ## Claims about the checker and the entity model -/

/-- C1 (code bug): the matching path never consults `overlapThreshold`.
Two unit boxes offset by half a width have IoS `1/2`; against a template
whose threshold is `7/10` the spec's step 2 would discard the pair, yet
`getEvents` still produces the candidate match. -/
theorem getEvents_ignores_overlapThreshold :
    getOverlaps [(⟨0, 0, 1, 1⟩ : BBox), ⟨1/2, 0, 1, 1⟩] = Except.ok [⟨[0, 1], 1/2⟩] ∧
    (1 : ℚ)/2 < (⟨"sit", 7/10, 5, 5, [["a"], ["b"]]⟩ : ConfiguredInteraction).thresh ∧
    getEvents [⟨"sit", 7/10, 5, 5, [["a"], ["b"]]⟩]
        [⟨some "a", ⟨0, 0, 1, 1⟩⟩, ⟨some "b", ⟨1/2, 0, 1, 1⟩⟩]
      = Except.ok [⟨⟨"sit", 7/10, 5, 5, [["a"], ["b"]]⟩,
          [⟨some "a", ⟨0, 0, 1, 1⟩⟩, ⟨some "b", ⟨1/2, 0, 1, 1⟩⟩]⟩] := by
  refine ⟨?_, by norm_num, ?_⟩
  · norm_num [getOverlaps, calcIoS, BBox.asRX1Y1X2Y2, BBox.area,
      List.range, List.range.loop, List.foldlM, Except.bind,
      Bind.bind, Pure.pure, Functor.map, Except.pure, Except.map, Except.instMonad]
  · norm_num [getEvents, getOverlaps, calcIoS, BBox.asRX1Y1X2Y2,
      BBox.area, List.range, List.range.loop, List.foldlM, Except.bind, findMatches,
      labelInSlot, List.enum, List.enumFrom, List.eraseIdx,
      Bind.bind, Pure.pure, Functor.map, Except.pure, Except.map, Except.instMonad]
    simp

/-- C6 counterexample: on a snapshot with one overlapping pair, a template
declaring three slots makes the matcher raise `AssertionError` (the
`assert(len(overlapIdxs) == len(slots))` fails) — it does not complete
normally with no candidates. -/
theorem getEvents_threeSlot_raises :
    getEvents [⟨"trio", 7/10, 5, 5, [["a"], ["a"], ["a"]]⟩]
        [⟨some "a", ⟨0, 0, 1, 1⟩⟩, ⟨some "a", ⟨1/2, 0, 1, 1⟩⟩]
      = Except.error PyErr.assertionError := by
  norm_num [getEvents, getOverlaps, calcIoS, BBox.asRX1Y1X2Y2,
    BBox.area, List.range, List.range.loop, List.foldlM, Except.bind, findMatches,
    labelInSlot, List.enum, List.enumFrom, List.eraseIdx,
    Bind.bind, Pure.pure, Functor.map, Except.pure, Except.map, Except.instMonad]

/-- C6 (amended): a template with more than two slots never yields a
candidate match — a successful run returns no candidates at all, which
happens exactly when there is no overlapping pair; as soon as any pairwise
overlap exists the matcher instead raises `AssertionError`, because slot
matching only ever receives the two members of a single pairwise overlap. -/
theorem getEvents_multiSlot (t : ConfiguredInteraction) (ht : 2 < t.slots.length)
    (objects : List CheckerObj) :
    (∀ r, getEvents [t] objects = Except.ok r → r = []) ∧
    (∀ ov rest, getOverlaps (objects.map (fun o => o.bbox)) = Except.ok (ov :: rest) →
      getEvents [t] objects = Except.error PyErr.assertionError) := by
  constructor
  · intro r hE
    unfold getEvents at hE
    cases hO : getOverlaps (objects.map fun o => o.bbox) with
    | error e => rw [hO, exceptBind_err] at hE; cases hE
    | ok overlaps =>
      rw [hO, exceptBind_ok] at hE
      cases overlaps with
      | nil =>
        simp only [List.foldlM_nil, exceptPure_eq] at hE
        cases hE
        rfl
      | cons ov rest =>
        have h2 : ov.idxs.length = 2 := getOverlaps_idxs_length _ _ hO ov (by simp)
        have hne : ov.idxs.length ≠ t.slots.length := by omega
        rw [List.foldlM_cons, List.foldlM_cons, findMatches_len_ne objects 100 ov.idxs t.slots hne,
          exceptBind_err, exceptBind_err, exceptBind_err] at hE
        cases hE
  · intro ov rest hO
    unfold getEvents
    rw [hO, exceptBind_ok]
    have h2 : ov.idxs.length = 2 := getOverlaps_idxs_length _ _ hO ov (by simp)
    have hne : ov.idxs.length ≠ t.slots.length := by omega
    rw [List.foldlM_cons, List.foldlM_cons, findMatches_len_ne objects 100 ov.idxs t.slots hne,
      exceptBind_err, exceptBind_err, exceptBind_err]

/-- Witness for `getEvents_multiSlot` at a concrete three-slot template and
a two-object snapshot. -/
theorem getEvents_multiSlot_witness :
    (∀ r, getEvents [⟨"trio", 7/10, 5, 5, [["a"], ["a"], ["a"]]⟩]
        [⟨some "a", ⟨0, 0, 1, 1⟩⟩, ⟨some "a", ⟨1/2, 0, 1, 1⟩⟩] = Except.ok r → r = []) ∧
    (∀ ov rest,
      getOverlaps (([⟨some "a", ⟨0, 0, 1, 1⟩⟩,
          ⟨some "a", ⟨1/2, 0, 1, 1⟩⟩] : List CheckerObj).map (fun o => o.bbox))
        = Except.ok (ov :: rest) →
      getEvents [⟨"trio", 7/10, 5, 5, [["a"], ["a"], ["a"]]⟩]
        [⟨some "a", ⟨0, 0, 1, 1⟩⟩, ⟨some "a", ⟨1/2, 0, 1, 1⟩⟩]
        = Except.error PyErr.assertionError) :=
  getEvents_multiSlot ⟨"trio", 7/10, 5, 5, [["a"], ["a"], ["a"]]⟩ (by decide)
    [⟨some "a", ⟨0, 0, 1, 1⟩⟩, ⟨some "a", ⟨1/2, 0, 1, 1⟩⟩]

/-- C8: deserializing the serialization of an entity reproduces the best
label, the best confidence, the age, the missing-streak counter and the
last bounding box exactly. -/
theorem fromJson_json_roundtrip (o : WatchedObject) :
    (WatchedObject.fromJson (WatchedObject.json o)).bestLabel = o.bestLabel ∧
    (WatchedObject.fromJson (WatchedObject.json o)).bestConf = o.bestConf ∧
    (WatchedObject.fromJson (WatchedObject.json o)).framesCnt = o.framesCnt ∧
    (WatchedObject.fromJson (WatchedObject.json o)).framesSinceSeen = o.framesSinceSeen ∧
    (WatchedObject.fromJson (WatchedObject.json o)).lastBbox = o.lastBbox :=
  ⟨rfl, rfl, rfl, rfl, rfl⟩

/-- C10: `markSeen` is not total on the spec's stated confidence range — a
first detection with confidence `0.0` makes the total confidence mass zero
and the best-label recomputation's division raises `ZeroDivisionError`. -/
theorem markSeen_zeroConf_zeroDivision :
    markSeen {} (some ⟨"cat", 0, ⟨0, 0, 1, 1⟩⟩) true = Except.error PyErr.zeroDivision := by
  norm_num [markSeen, foldDetection, recalculateBest, alGet, alSet, ValueStatTracker.addValue]

theorem specFold_share_inv (mass : ℚ) (rest : List (String × ConfDictEntry))
    (p : String × ConfDictEntry) (s : ℚ) (h : s = specShare p.2.tracker mass) :
    (rest.foldl
      (fun acc x =>
        if acc.2 < specShare x.2.tracker mass then (x, specShare x.2.tracker mass) else acc)
      (p, s)).2
    = specShare (rest.foldl
        (fun acc x =>
          if acc.2 < specShare x.2.tracker mass then (x, specShare x.2.tracker mass) else acc)
        (p, s)).1.2.tracker mass := by
  induction rest generalizing p s with
  | nil => exact h
  | cons hd tl ih =>
    simp only [List.foldl_cons]
    by_cases hlt : s < specShare hd.2.tracker mass
    · rw [if_pos hlt]
      exact ih hd _ rfl
    · rw [if_neg hlt]
      exact ih p s h

theorem pickBest_fold_eq (mass : ℚ) (rest : List (String × ConfDictEntry))
    (p : String × ConfDictEntry) (s : ℚ) :
    (rest.foldl
      (fun acc e =>
        let share := e.2.tracker.sum / mass
        if acc.2 < share then (some (e.1, e.2.tracker), share) else acc)
      (some (p.1, p.2.tracker), s))
    = ((fun q => (some (q.1.1, q.1.2.tracker), q.2))
        (rest.foldl
          (fun acc x =>
            if acc.2 < specShare x.2.tracker mass then (x, specShare x.2.tracker mass) else acc)
          (p, s))) := by
  induction rest generalizing p s with
  | nil => rfl
  | cons hd tl ih =>
    simp only [List.foldl_cons]
    by_cases hlt : s < specShare hd.2.tracker mass
    · rw [if_pos hlt, if_pos (show s < hd.2.tracker.sum / mass from hlt)]
      exact ih hd _
    · rw [if_neg hlt, if_neg (show ¬ s < hd.2.tracker.sum / mass from hlt)]
      exact ih p s

theorem pickBest_cons_eq (e : String × ConfDictEntry) (rest : List (String × ConfDictEntry))
    (mass : ℚ) (hPos : 0 < e.2.tracker.sum / mass) :
    pickBest (e :: rest) mass
      = ((fun q => (some (q.1.1, q.1.2.tracker), q.2))
          (rest.foldl
            (fun acc x =>
              if acc.2 < specShare x.2.tracker mass
              then (x, specShare x.2.tracker mass) else acc)
            (e, specShare e.2.tracker mass))) := by
  simp only [pickBest, List.foldl_cons]
  rw [if_pos hPos]
  exact pickBest_fold_eq mass rest e _

theorem recalculateBest_cons_spec (o : WatchedObject) (e : String × ConfDictEntry)
    (rest : List (String × ConfDictEntry)) (hC : o.confDict = e :: rest)
    (hPos : 0 < e.2.tracker.sum) (hMass : 0 < specTotalMass (e :: rest)) :
    (recalculateBest o).map (fun o' => (o'.bestLabel, o'.bestConf))
      = Except.ok (specBestLabel (e :: rest), specBestConf (e :: rest)) := by
  have hdiv : 0 < e.2.tracker.sum / specTotalMass (e :: rest) := div_pos hPos hMass
  have hne : specTotalMass (e :: rest) ≠ 0 := ne_of_gt hMass
  simp only [recalculateBest, hC]
  rw [show ((e :: rest).map (fun p => p.2.tracker.avg * (p.2.tracker.count : ℚ))).sum
      = specTotalMass (e :: rest) from rfl]
  rw [if_neg hne]
  rw [pickBest_cons_eq e rest (specTotalMass (e :: rest)) hdiv]
  simp only [Except.map]
  rw [specBestLabel, specBestConf]
  rw [show specArgmax (e :: rest) (specTotalMass (e :: rest))
      = some ((rest.foldl
          (fun acc x =>
            if acc.2 < specShare x.2.tracker (specTotalMass (e :: rest))
            then (x, specShare x.2.tracker (specTotalMass (e :: rest))) else acc)
          (e, specShare e.2.tracker (specTotalMass (e :: rest)))).1.1,
        (rest.foldl
          (fun acc x =>
            if acc.2 < specShare x.2.tracker (specTotalMass (e :: rest))
            then (x, specShare x.2.tracker (specTotalMass (e :: rest))) else acc)
          (e, specShare e.2.tracker (specTotalMass (e :: rest)))).1.2.tracker) from by
    simp only [specArgmax]]
  simp only [Option.map_some]
  rw [← specFold_share_inv (specTotalMass (e :: rest)) rest e _ rfl]
  rfl

/-- The entity state after `n ≥ 1` same-label detections of confidence `c`. -/
def sameLabelState (lbl : String) (c : ℚ) (box : BBox) (n : ℕ) : WatchedObject :=
  { framesCnt := n, framesSeen := 0, framesSinceSeen := 0,
    confDict := [(lbl, ⟨⟨c, n * c, 0, n, c, c, c⟩, some 1, some box⟩)],
    bestLabel := some lbl, bestConf := c, lastBbox := box }

theorem seenN_succ_eq (lbl : String) (c : ℚ) (box : BBox) (hc : 0 < c) :
    ∀ n, seenN lbl c box (n + 1) = Except.ok (sameLabelState lbl c box (n + 1)) := by
  have hcne : c ≠ 0 := ne_of_gt hc
  intro n
  induction n with
  | zero =>
    simp only [seenN]
    norm_num [markSeen, foldDetection, alGet, alSet, ValueStatTracker.addValue,
      recalculateBest, pickBest, updateShares, sameLabelState, hc, hcne]
  | succ m ih =>
    have step : seenN lbl c box (m + 1 + 1)
        = match seenN lbl c box (m + 1) with
          | Except.error e => Except.error e
          | Except.ok o => markSeen o (some ⟨lbl, c, box⟩) true := rfl
    rw [step, ih]
    norm_num [markSeen, foldDetection, alGet, alSet, ValueStatTracker.addValue,
      recalculateBest, pickBest, updateShares, sameLabelState, hc, hcne]
    have hnz : ((m : ℚ) + 1 + 1) ≠ 0 := by positivity
    have hshare : (((m : ℚ) + 1) * c + c) / (c * ((m : ℚ) + 1 + 1)) = 1 := by
      rw [div_eq_one_iff_eq (by positivity)]
      ring
    rw [if_neg hnz, hshare, if_pos one_pos]
    norm_num
    ring

/-- C7: the best-label judgment of `_recalculateBest` equals the spec's
reference algorithm (share = rawSum/totalMass, argmax with first-observed
tie-break, bestConfidence = avg·share); consequently `n ≥ 1` same-label
detections of confidence `c > 0` give back exactly that label and `c`, and
3 observations of "cat" at 0.9 plus 1 of "dog" at 0.6 give "cat" with
confidence `0.9·(2.7/3.3)`. -/
theorem bestLabel_matches_spec
    (o : WatchedObject) (e : String × ConfDictEntry) (rest : List (String × ConfDictEntry))
    (hC : o.confDict = e :: rest) (hPos : 0 < e.2.tracker.sum)
    (hMass : 0 < specTotalMass (e :: rest))
    (lbl : String) (c : ℚ) (box : BBox) (n : ℕ) (hc : 0 < c) :
    (recalculateBest o).map (fun o' => (o'.bestLabel, o'.bestConf))
        = Except.ok (specBestLabel (e :: rest), specBestConf (e :: rest)) ∧
    (seenN lbl c box (n + 1)).map (fun o' => (o'.bestLabel, o'.bestConf))
        = Except.ok (some lbl, c) ∧
    (match seenN "cat" (9/10) ⟨0, 0, 1, 1⟩ 3 with
      | Except.error err => Except.error err
      | Except.ok o' => markSeen o' (some ⟨"dog", 3/5, ⟨0, 0, 1, 1⟩⟩) true).map
        (fun o' : WatchedObject => (o'.bestLabel, o'.bestConf))
        = Except.ok (some "cat", 9/10 * ((27/10) / (33/10))) := by
  refine ⟨recalculateBest_cons_spec o e rest hC hPos hMass, ?_, ?_⟩
  · rw [seenN_succ_eq lbl c box hc n]
    rfl
  · rw [seenN_succ_eq "cat" (9/10) ⟨0, 0, 1, 1⟩ (by norm_num) 2]
    simp [markSeen, foldDetection, alGet, alSet, ValueStatTracker.addValue,
      recalculateBest, pickBest, updateShares, sameLabelState, Except.map]
    norm_num

/-- Concrete one-entry state for the `bestLabel_matches_spec` witness. -/
def witnessEntry : String × ConfDictEntry :=
  ("cat", ⟨⟨9/10, 9/10, 0, 1, 9/10, 9/10, 9/10⟩, none, none⟩)

/-- Concrete entity for the `bestLabel_matches_spec` witness. -/
def witnessObj : WatchedObject := { confDict := [witnessEntry] }

/-- Witness for `bestLabel_matches_spec` at a concrete one-label entity and
a concrete detection stream. -/
theorem bestLabel_matches_spec_witness :
    (recalculateBest witnessObj).map (fun o' => (o'.bestLabel, o'.bestConf))
        = Except.ok (specBestLabel [witnessEntry], specBestConf [witnessEntry]) ∧
    (seenN "cat" (1/2) ⟨0, 0, 1, 1⟩ (0 + 1)).map (fun o' => (o'.bestLabel, o'.bestConf))
        = Except.ok (some "cat", 1/2) ∧
    (match seenN "cat" (9/10) ⟨0, 0, 1, 1⟩ 3 with
      | Except.error err => Except.error err
      | Except.ok o' => markSeen o' (some ⟨"dog", 3/5, ⟨0, 0, 1, 1⟩⟩) true).map
        (fun o' : WatchedObject => (o'.bestLabel, o'.bestConf))
        = Except.ok (some "cat", 9/10 * ((27/10) / (33/10))) :=
  bestLabel_matches_spec witnessObj witnessEntry [] rfl (by norm_num [witnessEntry])
    (by norm_num [specTotalMass, witnessEntry]) "cat" (1/2) ⟨0, 0, 1, 1⟩ 0 (by norm_num)

/-! ## Lemmas and claims about the engine -/

/-- Number of `cleared k` publications in an emission list. -/
def countCleared (k : EventKey) (l : List Emission) : ℕ :=
  l.countP (fun em => em = Emission.cleared k)

/-- Number of `haConfig id` (registration) publications in an emission list. -/
def countConfig (id : String) (l : List Emission) : ℕ :=
  l.countP (fun em => em = Emission.haConfig id)

/-- Replay of a sequence of `publishDiscoveryEvent` calls, threading the
process-lifetime `_discoveryPublished` set and concatenating emissions. -/
def runDiscoveryCalls (calls : List (String × String)) (published : List String) :
    List String × List Emission :=
  calls.foldl
    (fun acc call =>
      let r := publishDiscoveryEvent acc.1 call.1 call.2
      (r.1, acc.2 ++ r.2))
    (published, [])

/-- `true` iff the first discovery emission (config or state) for `id` in
the list is the config one. -/
def firstDiscoveryIsConfig (id : String) : List Emission → Bool
  | [] => true
  | Emission.haConfig i :: rest =>
    if i = id then true else firstDiscoveryIsConfig id rest
  | Emission.haState i _ :: rest =>
    if i = id then false else firstDiscoveryIsConfig id rest
  | _ :: rest => firstDiscoveryIsConfig id rest

theorem publishDiscoveryEvent_mem_mono (published : List String) (entityId id : String)
    (st : String) (h : id ∈ published) :
    id ∈ (publishDiscoveryEvent published entityId st).1 := by
  unfold publishDiscoveryEvent
  by_cases he : entityId ∈ published
  · rw [if_pos he]; exact h
  · rw [if_neg he]; exact List.mem_cons_of_mem entityId h

theorem publishDiscoveryEvent_no_config_of_mem (published : List String) (id : String)
    (st : String) (h : id ∈ published) :
    countConfig id (publishDiscoveryEvent published id st).2 = 0 := by
  unfold publishDiscoveryEvent
  rw [if_pos h]
  simp [countConfig]

theorem runDiscoveryCalls_generalized (id : String) :
    ∀ (calls : List (String × String)) (published : List String) (acc : List Emission),
      (id ∈ published → countConfig id ((calls.foldl
        (fun acc call =>
          let r := publishDiscoveryEvent acc.1 call.1 call.2
          (r.1, acc.2 ++ r.2)) (published, acc)).2) = countConfig id acc) ∧
      (id ∉ published → countConfig id ((calls.foldl
        (fun acc call =>
          let r := publishDiscoveryEvent acc.1 call.1 call.2
          (r.1, acc.2 ++ r.2)) (published, acc)).2) ≤ countConfig id acc + 1) := by
  intro calls
  induction calls with
  | nil =>
    intro published acc
    exact ⟨fun _ => rfl, fun _ => Nat.le_succ _⟩
  | cons hd tl ih =>
    intro published acc
    simp only [List.foldl_cons]
    by_cases he : hd.1 ∈ published
    · rw [show publishDiscoveryEvent published hd.1 hd.2
          = (published, [Emission.haState hd.1 hd.2]) from by
        unfold publishDiscoveryEvent; rw [if_pos he]]
      constructor
      · intro hid
        rw [(ih published (acc ++ [Emission.haState hd.1 hd.2])).1 hid]
        simp [countConfig]
      · intro hid
        refine le_trans ((ih published (acc ++ [Emission.haState hd.1 hd.2])).2 hid) ?_
        simp [countConfig]
    · rw [show publishDiscoveryEvent published hd.1 hd.2
          = (hd.1 :: published, [Emission.haState hd.1 hd.2, Emission.haConfig hd.1]) from by
        unfold publishDiscoveryEvent; rw [if_neg he]]
      by_cases hd1 : hd.1 = id
      · constructor
        · intro hid
          exact absurd (by rw [hd1]; exact hid) he
        · intro hid
          have hmem : id ∈ hd.1 :: published := by rw [hd1]; exact List.mem_cons_self id published
          rw [(ih (hd.1 :: published) (acc ++ [Emission.haState hd.1 hd.2,
            Emission.haConfig hd.1])).1 hmem]
          simp [countConfig, hd1]
      · constructor
        · intro hid
          have hmem : id ∈ hd.1 :: published := List.mem_cons_of_mem hd.1 hid
          rw [(ih (hd.1 :: published) _).1 hmem]
          simp [countConfig, hd1, Ne.symm hd1]
        · intro hid
          have hmem : id ∉ hd.1 :: published := by
            intro hc
            rcases List.mem_cons.mp hc with h1 | h2
            · exact hd1 h1.symm
            · exact hid h2
          refine le_trans ((ih (hd.1 :: published)
            (acc ++ [Emission.haState hd.1 hd.2, Emission.haConfig hd.1])).2 hmem) ?_
          simp [countConfig, hd1, Ne.symm hd1]

/-- C4 counterexample: on the very first discovery call for an identity the
retained state payload is published first and the one-time config payload
second, so the registration does not precede every state emission. -/
theorem discovery_state_precedes_config :
    (publishDiscoveryEvent [] "Trackercamsitab" "ON").2
        = [Emission.haState "Trackercamsitab" "ON", Emission.haConfig "Trackercamsitab"] ∧
    countConfig "Trackercamsitab" (publishDiscoveryEvent [] "Trackercamsitab" "ON").2 = 1 ∧
    firstDiscoveryIsConfig "Trackercamsitab"
        (publishDiscoveryEvent [] "Trackercamsitab" "ON").2 = false := by
  decide

/-- C4 (amended): over any sequence of discovery calls starting from an
empty registration set, the config payload for an identity is emitted at
most once; on the first call for an identity it is emitted immediately
after that call's state payload (hence before all later state payloads);
on every later call only the state payload is emitted. -/
theorem discovery_registration_once (id : String) (calls : List (String × String))
    (st : String) (published : List String) (hfresh : id ∉ published) :
    countConfig id (runDiscoveryCalls calls []).2 ≤ 1 ∧
    publishDiscoveryEvent published id st
        = (id :: published, [Emission.haState id st, Emission.haConfig id]) ∧
    (∀ published2 : List String, id ∈ published2 →
      publishDiscoveryEvent published2 id st = (published2, [Emission.haState id st])) := by
  refine ⟨?_, ?_, ?_⟩
  · have h := (runDiscoveryCalls_generalized id calls [] []).2 (List.not_mem_nil id)
    simpa [runDiscoveryCalls, countConfig] using h
  · unfold publishDiscoveryEvent
    rw [if_neg hfresh]
  · intro published2 hmem
    unfold publishDiscoveryEvent
    rw [if_pos hmem]

/-- Witness for `discovery_registration_once` at one concrete call list. -/
theorem discovery_registration_once_witness :
    countConfig "x" (runDiscoveryCalls [("x", "ON"), ("x", "OFF"), ("x", "ON")] []).2 ≤ 1 ∧
    publishDiscoveryEvent ["y"] "x" "ON"
        = ("x" :: ["y"], [Emission.haState "x" "ON", Emission.haConfig "x"]) ∧
    (∀ published2 : List String, "x" ∈ published2 →
      publishDiscoveryEvent published2 "x" "ON"
        = (published2, [Emission.haState "x" "ON"])) :=
  discovery_registration_once "x" [("x", "ON"), ("x", "OFF"), ("x", "ON")] "ON" ["y"]
    (by decide)

/-- C2 (amended): for a present, unpublished record the candidate step
publishes if and only if the clock sample is strictly greater than
`firstTimestamp + minTime` (`>` in the code, not `≥`); on publish the
record turns published (so later steps emit nothing more), otherwise the
record only has its `lastTimestamp` refreshed. -/
theorem debounce_strictly_greater (cfg : EngineCfg) (st : EngineState)
    (c : ConfiguredInteraction × List String) (v : EventValue)
    (hk : (⟨c.1.name, c.2⟩ : EventKey) ∉ st.usedKeys)
    (hv : alGet st.events ⟨c.1.name, c.2⟩ = some v) :
    (v.published = false →
      (v.firstTimestamp + c.1.minTime < cfg.clock st.clockIdx →
        (processCandidate cfg st c).emissions
            = st.emissions ++ [Emission.activated ⟨c.1.name, c.2⟩]
              ++ (if cfg.discoveryEnabled then
                    publishDiscoveryEvent st.discoveryPublished
                      (createEntityId cfg ⟨c.1.name, c.2⟩) "ON"
                  else (st.discoveryPublished, [])).2 ∧
        alGet (processCandidate cfg st c).events ⟨c.1.name, c.2⟩
            = some ⟨v.firstTimestamp, cfg.clock (st.clockIdx + 1), true⟩) ∧
      (¬ v.firstTimestamp + c.1.minTime < cfg.clock st.clockIdx →
        (processCandidate cfg st c).emissions = st.emissions ∧
        alGet (processCandidate cfg st c).events ⟨c.1.name, c.2⟩
            = some ⟨v.firstTimestamp, cfg.clock (st.clockIdx + 1), false⟩)) ∧
    (v.published = true →
      (processCandidate cfg st c).emissions = st.emissions ∧
      alGet (processCandidate cfg st c).events ⟨c.1.name, c.2⟩
          = some ⟨v.firstTimestamp, cfg.clock st.clockIdx, true⟩) := by
  constructor
  · intro hpub
    constructor
    · intro hlt
      unfold processCandidate
      rw [if_neg hk, hv]
      simp only [hpub, Bool.false_eq_true, if_false]
      rw [if_pos hlt]
      exact ⟨rfl, alGet_alSet_self st.events _ _⟩
    · intro hlt
      unfold processCandidate
      rw [if_neg hk, hv]
      simp only [hpub, Bool.false_eq_true, if_false]
      rw [if_neg hlt]
      exact ⟨rfl, alGet_alSet_self st.events _ _⟩
  · intro hpub
    unfold processCandidate
    rw [if_neg hk, hv]
    simp only [hpub, if_true]
    exact ⟨trivial, alGet_alSet_self st.events _ _⟩

/-- The template used in the concrete engine scenarios: `minSustain` 3. -/
def tmplSit : ConfiguredInteraction := ⟨"sit", 1/2, 3, 5, [["a"], ["b"]]⟩

/-- The event key of the concrete engine scenarios. -/
def keySit : EventKey := ⟨"sit", ["a", "b"]⟩

/-- A clock stuck at exactly `firstTimestamp + minSustain`. -/
def cfgBoundary : EngineCfg :=
  { clock := fun _ => 3, discoveryEnabled := false,
    interactions := [("sit", ⟨[["a"], ["b"]], 1/2, 3, 5⟩)] }

/-- One unpublished record first observed at `t = 0`. -/
def stBoundary : EngineState := { events := [(keySit, ⟨0, 0, false⟩)] }

/-- C2 counterexample: at `now − firstObservedAt = minSustain` exactly
(record present, unpublished, key not yet deduplicated), the engine does
not publish — the code's comparison is strict `>`, not `≥`. -/
theorem debounce_boundary_no_publish :
    alGet stBoundary.events keySit = some ⟨0, 0, false⟩ ∧
    cfgBoundary.clock stBoundary.clockIdx - (0 : ℚ) ≥ tmplSit.minTime ∧
    (processCandidate cfgBoundary stBoundary (tmplSit, ["a", "b"])).emissions = [] ∧
    alGet (processCandidate cfgBoundary stBoundary (tmplSit, ["a", "b"])).events keySit
        = some ⟨0, 3, false⟩ := by
  refine ⟨by simp [stBoundary, keySit, alGet], by norm_num [cfgBoundary, stBoundary, tmplSit], ?_, ?_⟩
  · simp [processCandidate, cfgBoundary, stBoundary, tmplSit, keySit, alGet, alSet]
  · simp [processCandidate, cfgBoundary, stBoundary, tmplSit, keySit, alGet, alSet]

/-- A clock strictly past `firstTimestamp + minSustain`. -/
def cfgAfter : EngineCfg :=
  { clock := fun _ => 4, discoveryEnabled := false,
    interactions := [("sit", ⟨[["a"], ["b"]], 1/2, 3, 5⟩)] }

/-- Witness for `debounce_strictly_greater`: one tick past the boundary the
record is published, with exactly one activation emission. -/
theorem debounce_strictly_greater_witness :
    (processCandidate cfgAfter stBoundary (tmplSit, ["a", "b"])).emissions
        = [Emission.activated ⟨tmplSit.name, ["a", "b"]⟩] := by
  have h := (debounce_strictly_greater cfgAfter stBoundary (tmplSit, ["a", "b"]) ⟨0, 0, false⟩
    (by simp [stBoundary]) (by simp [stBoundary, keySit, tmplSit, alGet])).1 rfl
  have h2 := h.1 (by norm_num [cfgAfter, stBoundary, tmplSit])
  rw [h2.1]
  simp [stBoundary, cfgAfter]

theorem alGet_none_iff {α β : Type} [DecidableEq α] (l : List (α × β)) (k : α) :
    alGet l k = none ↔ k ∉ l.map Prod.fst := by
  induction l with
  | nil => simp [alGet]
  | cons hd tl ih =>
    by_cases h : hd.1 = k
    · simp [alGet, h]
    · simp [alGet, h, ih, Ne.symm h]

theorem alGet_alRemove_self {α β : Type} [DecidableEq α] (l : List (α × β)) (k : α)
    (hnd : (l.map Prod.fst).Nodup) : alGet (alRemove l k) k = none := by
  induction l with
  | nil => simp [alRemove, alGet]
  | cons hd tl ih =>
    simp only [List.map_cons, List.nodup_cons] at hnd
    by_cases h : hd.1 = k
    · rw [alRemove, if_pos h, alGet_none_iff]
      rw [← h]
      exact hnd.1
    · rw [alRemove, if_neg h, alGet, if_neg h]
      exact ih hnd.2

theorem countCleared_discovery (k : EventKey) (published : List String)
    (entityId st : String) :
    countCleared k (publishDiscoveryEvent published entityId st).2 = 0 := by
  unfold publishDiscoveryEvent
  by_cases h : entityId ∈ published
  · rw [if_pos h]; simp [countCleared]
  · rw [if_neg h]; simp [countCleared]

theorem countCleared_processCandidate (cfg : EngineCfg) (st : EngineState)
    (c : ConfiguredInteraction × List String) (k : EventKey) :
    countCleared k (processCandidate cfg st c).emissions = countCleared k st.emissions := by
  unfold processCandidate
  by_cases hk : (⟨c.1.name, c.2⟩ : EventKey) ∈ st.usedKeys
  · rw [if_pos hk]
  · rw [if_neg hk]
    cases hA : alGet st.events ⟨c.1.name, c.2⟩ with
    | none => rfl
    | some v =>
      cases hp : v.published with
      | true => simp [hp]
      | false =>
        simp only [hp, Bool.false_eq_true, if_false]
        by_cases hc2 : v.firstTimestamp + c.1.minTime < cfg.clock st.clockIdx
        · rw [if_pos hc2]
          simp only [countCleared, List.countP_append]
          by_cases hd : cfg.discoveryEnabled
          · rw [if_pos hd]
            have := countCleared_discovery k st.discoveryPublished
              (createEntityId cfg ⟨c.1.name, c.2⟩) "ON"
            simp only [countCleared] at this
            simp [this, countCleared]
          · rw [if_neg hd]
            simp [countCleared]
        · rw [if_neg hc2]

theorem countCleared_expiryStep_ne (cfg : EngineCfg) (s : EngineState) (k k' : EventKey)
    (hne : k' ≠ k) (r : EngineState) (hE : expiryStep cfg s k' = Except.ok r) :
    countCleared k r.emissions = countCleared k s.emissions := by
  cases hI : alGet cfg.interactions k'.key with
  | none => simp only [expiryStep, hI] at hE; cases hE
  | some inter =>
    cases hV : alGet s.events k' with
    | none => simp only [expiryStep, hI, hV] at hE; cases hE
    | some v =>
      simp only [expiryStep, hI, hV] at hE
      by_cases hc : v.lastTimestamp + inter.expireTime < cfg.clock s.clockIdx
      · rw [if_pos hc] at hE
        cases hE
        cases hp : v.published with
        | true =>
          simp only [hp, if_true]
          by_cases hd : cfg.discoveryEnabled
          · rw [if_pos hd]
            have h0 := countCleared_discovery k s.discoveryPublished
              (createEntityId cfg k') "OFF"
            simp only [countCleared, List.countP_append] at h0 ⊢
            simp [h0, hne, Ne.symm hne, Emission.cleared.injEq, countCleared]
          · rw [if_neg hd]
            simp [countCleared, hne, Ne.symm hne]
        | false =>
          simp [hp, countCleared]
      · rw [if_neg hc] at hE
        cases hE
        rfl

theorem foldlM_except_inv_mem {α β : Type} (P : β → Prop) {f : β → α → Except PyErr β}
    (xs : List α) (hf : ∀ b a r, a ∈ xs → P b → f b a = Except.ok r → P r) :
    ∀ (init res : β), P init → xs.foldlM f init = Except.ok res → P res := by
  induction xs with
  | nil =>
    intro init res h hE
    simp only [List.foldlM_nil, exceptPure_eq] at hE
    cases hE
    exact h
  | cons hd tl ih =>
    intro init res h hE
    rw [List.foldlM_cons] at hE
    cases hF : f init hd with
    | error e => rw [hF, exceptBind_err] at hE; cases hE
    | ok b =>
      rw [hF, exceptBind_ok] at hE
      exact ih (fun b2 a r ha => hf b2 a r (List.mem_cons_of_mem hd ha))
        b res (hf init hd b (List.mem_cons_self hd tl) h hF) hE

theorem countCleared_candidate_fold (cfg : EngineCfg) (k : EventKey)
    (evs : List (ConfiguredInteraction × List String)) :
    ∀ s : EngineState, countCleared k ((evs.foldl (processCandidate cfg) s).emissions)
      = countCleared k s.emissions := by
  induction evs with
  | nil => intro s; rfl
  | cons hd tl ih =>
    intro s
    rw [List.foldl_cons, ih (processCandidate cfg s hd), countCleared_processCandidate]

theorem runPass_no_cleared (cfg : EngineCfg) (evs : List (ConfiguredInteraction × List String))
    (st2 st3 : EngineState) (k : EventKey) (h0 : alGet st2.events k = none)
    (hE : runPass cfg evs st2 = Except.ok st3) :
    countCleared k st3.emissions = countCleared k st2.emissions := by
  unfold runPass at hE
  have h1 : countCleared k
      ((evs.foldl (processCandidate cfg) { st2 with usedKeys := [] }).emissions)
      = countCleared k st2.emissions :=
    countCleared_candidate_fold cfg k evs { st2 with usedKeys := [] }
  refine foldlM_except_inv_mem
    (fun s => countCleared k s.emissions = countCleared k st2.emissions) _ ?_ _ _ h1 hE
  intro b a r ha hb hF
  have hak : a ≠ k := by
    intro hak
    subst hak
    have hmem : a ∈ st2.events.map Prod.fst := List.mem_of_mem_filter ha
    exact (alGet_none_iff st2.events a).mp h0 hmem
  rw [countCleared_expiryStep_ne cfg b k a hak r hF]
  exact hb

theorem foldlM_ok_steps {α β : Type} {f : β → α → Except PyErr β} :
    ∀ (xs : List α) (init res : β), xs.foldlM f init = Except.ok res →
      ∀ a ∈ xs, ∃ b r, f b a = Except.ok r := by
  intro xs
  induction xs with
  | nil =>
    intro init res hE a ha
    exact absurd ha (List.not_mem_nil a)
  | cons hd tl ih =>
    intro init res hE a ha
    rw [List.foldlM_cons] at hE
    cases hF : f init hd with
    | error e => rw [hF, exceptBind_err] at hE; cases hE
    | ok b =>
      rw [hF, exceptBind_ok] at hE
      rcases List.mem_cons.mp ha with h1 | h2
      · exact ⟨init, b, h1 ▸ hF⟩
      · exact ih b res hE a h2

/-- C3: an absent key whose record satisfies `now − lastObservedAt >
expireAfter` is removed unconditionally; exactly one clear is emitted iff
the record had been published (silent removal otherwise); a record is kept
when the condition fails; and once a record is gone an entire later pass
cannot emit another clear for it. -/
theorem expiry_clear_exactly_once (cfg : EngineCfg) (st : EngineState) (k : EventKey)
    (v : EventValue) (inter : Interaction)
    (hnd : (st.events.map Prod.fst).Nodup)
    (hv : alGet st.events k = some v)
    (hi : alGet cfg.interactions k.key = some inter) :
    (v.lastTimestamp + inter.expireTime < cfg.clock st.clockIdx →
      ∃ st', expiryStep cfg st k = Except.ok st' ∧
        alGet st'.events k = none ∧
        countCleared k st'.emissions
            = countCleared k st.emissions + (if v.published then 1 else 0)) ∧
    (¬ v.lastTimestamp + inter.expireTime < cfg.clock st.clockIdx →
      expiryStep cfg st k = Except.ok { st with clockIdx := st.clockIdx + 1 }) ∧
    (∀ (cfg2 : EngineCfg) (evs : List (ConfiguredInteraction × List String))
        (st2 st3 : EngineState), alGet st2.events k = none →
      runPass cfg2 evs st2 = Except.ok st3 →
      countCleared k st3.emissions = countCleared k st2.emissions) := by
  refine ⟨?_, ?_, ?_⟩
  · intro hc
    simp only [expiryStep, hi, hv]
    rw [if_pos hc]
    refine ⟨_, rfl, ?_, ?_⟩
    · exact alGet_alRemove_self st.events k hnd
    · cases hp : v.published with
      | true =>
        simp only [hp, if_true]
        by_cases hd : cfg.discoveryEnabled
        · rw [if_pos hd]
          have h0 := countCleared_discovery k st.discoveryPublished
            (createEntityId cfg k) "OFF"
          simp only [countCleared, List.countP_append] at h0 ⊢
          simp [h0, countCleared]
        · rw [if_neg hd]
          simp [countCleared]
      | false =>
        simp [hp, countCleared]
  · intro hc
    simp only [expiryStep, hi, hv]
    rw [if_neg hc]
  · intro cfg2 evs st2 st3 h0 hE
    exact runPass_no_cleared cfg2 evs st2 st3 k h0 hE

/-- A clock far past expiry, with the `sit` interaction configured. -/
def cfgExpire : EngineCfg :=
  { clock := fun _ => 10, discoveryEnabled := false,
    interactions := [("sit", ⟨[["a"], ["b"]], 1/2, 3, 5⟩)] }

/-- One published record last observed at `t = 0`. -/
def stExpire : EngineState := { events := [(keySit, ⟨0, 0, true⟩)] }

/-- Witness for `expiry_clear_exactly_once` at a concrete expired,
published record. -/
theorem expiry_clear_exactly_once_witness :
    ((⟨0, 0, true⟩ : EventValue).lastTimestamp
        + (⟨[["a"], ["b"]], 1/2, 3, 5⟩ : Interaction).expireTime
        < cfgExpire.clock stExpire.clockIdx →
      ∃ st', expiryStep cfgExpire stExpire keySit = Except.ok st' ∧
        alGet st'.events keySit = none ∧
        countCleared keySit st'.emissions
            = countCleared keySit stExpire.emissions
              + (if (⟨0, 0, true⟩ : EventValue).published then 1 else 0)) ∧
    (¬ (⟨0, 0, true⟩ : EventValue).lastTimestamp
        + (⟨[["a"], ["b"]], 1/2, 3, 5⟩ : Interaction).expireTime
        < cfgExpire.clock stExpire.clockIdx →
      expiryStep cfgExpire stExpire keySit
          = Except.ok { stExpire with clockIdx := stExpire.clockIdx + 1 }) ∧
    (∀ (cfg2 : EngineCfg) (evs : List (ConfiguredInteraction × List String))
        (st2 st3 : EngineState), alGet st2.events keySit = none →
      runPass cfg2 evs st2 = Except.ok st3 →
      countCleared keySit st3.emissions = countCleared keySit st2.emissions) :=
  expiry_clear_exactly_once cfgExpire stExpire keySit ⟨0, 0, true⟩ ⟨[["a"], ["b"]], 1/2, 3, 5⟩
    (by simp [stExpire]) (by simp [stExpire, alGet])
    (by simp [cfgExpire, keySit, alGet])

/-- C5 counterexample: a tracked record whose interaction name is absent
from the configured template set makes the evaluation pass raise `KeyError`
instead of silently expiring the record. -/
theorem missing_interaction_pass_raises :
    runPass { clock := fun _ => 10, discoveryEnabled := false, interactions := [] } []
        { events := [(keySit, ⟨0, 0, false⟩)] }
      = Except.error PyErr.keyError := by
  simp [runPass, expiryStep, alGet, keySit, List.foldlM, exceptBind_err]

/-- C5 (amended): when the interaction behind a record's key is missing
from the template set at expiry-evaluation time, the engine raises
`KeyError` — the record is not treated as expirable, and a pass that would
evaluate such a record for expiry cannot complete normally. -/
theorem missing_interaction_keyError (cfg : EngineCfg) (st : EngineState) (k : EventKey)
    (h : alGet cfg.interactions k.key = none) :
    expiryStep cfg st k = Except.error PyErr.keyError ∧
    (k ∈ st.events.map Prod.fst → ∀ st3, runPass cfg [] st ≠ Except.ok st3) := by
  have hstep : ∀ b : EngineState, expiryStep cfg b k = Except.error PyErr.keyError := by
    intro b
    simp only [expiryStep, h]
  refine ⟨hstep st, ?_⟩
  intro hk st3 hE
  unfold runPass at hE
  simp only [List.foldl_nil] at hE
  rcases foldlM_ok_steps _ _ _ hE k (by simp [hk]) with ⟨b, r, hF⟩
  rw [hstep b] at hF
  cases hF

/-- Witness for `missing_interaction_keyError` at a concrete record. -/
theorem missing_interaction_keyError_witness :
    expiryStep { clock := fun _ => 10, discoveryEnabled := false, interactions := [] }
        { events := [(keySit, ⟨0, 0, false⟩)] } keySit
      = Except.error PyErr.keyError ∧
    (keySit ∈ (({ events := [(keySit, ⟨0, 0, false⟩)] } : EngineState).events.map Prod.fst) →
      ∀ st3, runPass { clock := fun _ => 10, discoveryEnabled := false, interactions := [] } []
          { events := [(keySit, ⟨0, 0, false⟩)] }
        ≠ Except.ok st3) :=
  missing_interaction_keyError
    { clock := fun _ => 10, discoveryEnabled := false, interactions := [] }
    { events := [(keySit, ⟨0, 0, false⟩)] } keySit (by simp [alGet])

/-- `cfg` with its clock frozen at the single value `now`. -/
def constCfg (cfg : EngineCfg) (now : ℚ) : EngineCfg := { cfg with clock := fun _ => now }

/-- Observable agreement of two engine states: equal on everything except
the clock sample counter. -/
def StObs (s t : EngineState) : Prop :=
  s.events = t.events ∧ s.usedKeys = t.usedKeys ∧ s.emissions = t.emissions ∧
    s.discoveryPublished = t.discoveryPublished

/-- Observable agreement of two pass results. -/
def ResObs (a b : Except PyErr EngineState) : Prop :=
  match a, b with
  | Except.error e, Except.error e' => e = e'
  | Except.ok r, Except.ok r' => StObs r r'
  | _, _ => False

theorem cand_sim (cfg : EngineCfg) (now : ℚ) (s t : EngineState)
    (c : ConfiguredInteraction × List String) (h : StObs s t) :
    StObs (processCandidate (constCfg cfg now) s c)
      (refProcessCandidate (constCfg cfg now) now t c) := by
  obtain ⟨h1, h2, h3, h4⟩ := h
  simp only [processCandidate, refProcessCandidate, constCfg]
  rw [← h1, ← h2, ← h3, ← h4]
  by_cases hk : (⟨c.1.name, c.2⟩ : EventKey) ∈ s.usedKeys
  · rw [if_pos hk, if_pos hk]
    exact ⟨h1, h2, h3, h4⟩
  · rw [if_neg hk, if_neg hk]
    cases hA : alGet s.events ⟨c.1.name, c.2⟩ with
    | none => exact ⟨rfl, rfl, rfl, rfl⟩
    | some v =>
      simp only []
      cases hp : v.published with
      | true =>
        simp only [hp, if_true]
        exact ⟨rfl, rfl, rfl, rfl⟩
      | false =>
        simp only [hp, Bool.false_eq_true, if_false]
        by_cases hc : v.firstTimestamp + c.1.minTime < now
        · rw [if_pos hc, if_pos hc]
          exact ⟨rfl, rfl, rfl, rfl⟩
        · rw [if_neg hc, if_neg hc]
          exact ⟨rfl, rfl, rfl, rfl⟩

theorem cand_fold_sim (cfg : EngineCfg) (now : ℚ)
    (evs : List (ConfiguredInteraction × List String)) :
    ∀ (s t : EngineState), StObs s t →
      StObs (evs.foldl (processCandidate (constCfg cfg now)) s)
        (evs.foldl (refProcessCandidate (constCfg cfg now) now) t) := by
  induction evs with
  | nil => intro s t h; exact h
  | cons hd tl ih =>
    intro s t h
    rw [List.foldl_cons, List.foldl_cons]
    exact ih _ _ (cand_sim cfg now s t hd h)

theorem exp_sim (cfg : EngineCfg) (now : ℚ) (s t : EngineState) (k : EventKey)
    (h : StObs s t) :
    ResObs (expiryStep (constCfg cfg now) s k)
      (refExpiryStep (constCfg cfg now) now t k) := by
  obtain ⟨h1, h2, h3, h4⟩ := h
  simp only [expiryStep, refExpiryStep, constCfg]
  rw [← h1, ← h3, ← h4]
  cases hI : alGet cfg.interactions k.key with
  | none => exact rfl
  | some inter =>
    cases hV : alGet s.events k with
    | none => exact rfl
    | some v =>
      simp only []
      by_cases hc : v.lastTimestamp + inter.expireTime < now
      · rw [if_pos hc, if_pos hc]
        exact ⟨rfl, h2, rfl, rfl⟩
      · rw [if_neg hc, if_neg hc]
        exact ⟨h1, h2, h3, h4⟩

theorem exp_fold_sim (cfg : EngineCfg) (now : ℚ) (keys : List EventKey) :
    ∀ (s t : EngineState), StObs s t →
      ResObs (keys.foldlM (expiryStep (constCfg cfg now)) s)
        (keys.foldlM (refExpiryStep (constCfg cfg now) now) t) := by
  induction keys with
  | nil => intro s t h; exact h
  | cons hd tl ih =>
    intro s t h
    rw [List.foldlM_cons, List.foldlM_cons]
    have hstep := exp_sim cfg now s t hd h
    cases hA : expiryStep (constCfg cfg now) s hd with
    | error e =>
      rw [hA] at hstep
      cases hB : refExpiryStep (constCfg cfg now) now t hd with
      | error e' =>
        rw [hB] at hstep
        rw [exceptBind_err, exceptBind_err]
        exact hstep
      | ok r' => rw [hB] at hstep; exact absurd hstep (by simp [ResObs])
    | ok r =>
      rw [hA] at hstep
      cases hB : refExpiryStep (constCfg cfg now) now t hd with
      | error e' => rw [hB] at hstep; exact absurd hstep (by simp [ResObs])
      | ok r' =>
        rw [hB] at hstep
        rw [exceptBind_ok, exceptBind_ok]
        exact ih r r' hstep

theorem constCfg_clock (cfg : EngineCfg) (now : ℚ) (i : ℕ) :
    (constCfg cfg now).clock i = now := rfl

/-- C9 (amended): when the clock does not advance during a pass (all
`time.time()` samples equal), the pass agrees with the single-sample
reference on every observable: the event map, the deduplicated key set, the
emissions and the discovery registration set. -/
theorem runPass_single_sample (cfg : EngineCfg) (now : ℚ)
    (evs : List (ConfiguredInteraction × List String)) (st0 : EngineState) :
    ResObs (runPass (constCfg cfg now) evs st0)
      (refRunPass (constCfg cfg now) evs st0) := by
  unfold runPass refRunPass
  simp only [constCfg_clock]
  have hfold := cand_fold_sim cfg now evs { st0 with usedKeys := [] }
    { st0 with usedKeys := [] } ⟨rfl, rfl, rfl, rfl⟩
  simp only [hfold.2.1]
  exact exp_fold_sim cfg now _ _ _ hfold

/-- Second template/key for the clock-drift scenario. -/
def tmplSit2 : ConfiguredInteraction := ⟨"sit2", 1/2, 3, 5, [["a"], ["b"]]⟩

/-- Second event key for the clock-drift scenario. -/
def keySit2 : EventKey := ⟨"sit2", ["a", "b"]⟩

/-- A nondecreasing clock that advances from 3 to 3.5 in the middle of the
pass (samples: 3, 3, 3.5, 3.5, ...). -/
def cfgDrift : EngineCfg :=
  { clock := fun n => if n < 2 then 3 else 7/2, discoveryEnabled := false,
    interactions := [("sit", ⟨[["a"], ["b"]], 1/2, 3, 5⟩), ("sit2", ⟨[["a"], ["b"]], 1/2, 3, 5⟩)] }

/-- Two unpublished records first observed at `t = 0`. -/
def stDrift : EngineState :=
  { events := [(keySit, ⟨0, 0, false⟩), (keySit2, ⟨0, 0, false⟩)] }

/-- C9 counterexample: with a nondecreasing clock that advances mid-pass,
the code publishes an activation for the second key while the
single-sample reference publishes nothing — the pass does not behave as if
"now" were sampled once. -/
theorem runPass_clock_drift_differs :
    (runPass cfgDrift [(tmplSit, ["a", "b"]), (tmplSit2, ["a", "b"])] stDrift).map
        (fun s => s.emissions) = Except.ok [Emission.activated keySit2] ∧
    (refRunPass cfgDrift [(tmplSit, ["a", "b"]), (tmplSit2, ["a", "b"])] stDrift).map
        (fun s => s.emissions) = Except.ok [] ∧
    (cfgDrift.clock 0 = 3 ∧ cfgDrift.clock 1 = 3 ∧ cfgDrift.clock 2 = 7/2 ∧
      cfgDrift.clock 3 = 7/2 ∧ (3 : ℚ) ≤ 7/2) := by
  refine ⟨?_, ?_, ?_⟩
  · simp [runPass, processCandidate, expiryStep, refRunPass, refProcessCandidate,
      refExpiryStep, alGet, alSet, cfgDrift, stDrift, tmplSit, tmplSit2, keySit, keySit2,
      List.foldlM, Except.map]
    norm_num
    rfl
  · simp [runPass, processCandidate, expiryStep, refRunPass, refProcessCandidate,
      refExpiryStep, alGet, alSet, cfgDrift, stDrift, tmplSit, tmplSit2, keySit, keySit2,
      List.foldlM, Except.map]
    rfl
  · refine ⟨rfl, rfl, rfl, rfl, by norm_num⟩
